import Mathlib

/-!
Shallow embedding of `src/python-agent/agent.py` (class `MCPToolboxAgent`):
the conversation-turn orchestration loop bridging a Bedrock-style model
service with an MCP tool server.

External collaborators are modelled as oracles:
* the MCP `call_tool` operation is a function
  `String → JsonValue → Except String MCPCallResult` (an `Except.error e`
  models a raised exception whose string rendering is `e`);
* the Bedrock `converse` endpoint is a list of stubbed responses consumed
  one per loop iteration (`Except.error e` models a raised exception);
  when the stub list is exhausted the loop is cut off with `result = none`,
  which models only the truncation of the trace, never a return value.
-/

/-- Opaque stand-in for a JSON value.  `agent.py` never inspects tool input
schemas or tool arguments; it only passes them through verbatim, so their
concrete structure is irrelevant to every claim. -/
abbrev JsonValue := String

/-- A content block of a conversation message, the tagged union behind the
dicts `{"text": ...}`, `{"toolUse": {...}}`, `{"toolResult": {...}}` that
`agent.py` builds and probes with `.get`. -/
inductive ContentBlock where
  | text (value : String)
  | toolUse (toolUseId : String) (name : String) (input : JsonValue)
  | toolResult (toolUseId : String) (content : List ContentBlock)
deriving Repr

/-- A conversation turn: `{"role": ..., "content": [...]}` in `agent.py`. -/
structure Message where
  role : String
  content : List ContentBlock
deriving Repr

/-- A Bedrock `converse` response as read by `agent.py`:
`stop_reason = response.get("stopReason")` and
`assistant_message = response.get("output", {}).get("message", {})`.
`message = none` models both a missing `output.message` and the falsy `{}`
default (`if assistant_message:` rejects exactly these). -/
structure BedrockResponse where
  stopReason : Option String
  message : Option Message
deriving Repr

/-- An MCP content item inside a `call_tool` result.  `text = some t` models
an item for which `hasattr(content, 'text')` holds with `content.text = t`;
`text = none` models a non-text item. -/
structure MCPContentItem where
  text : Option String
deriving Repr

/-- A successful `call_tool` result: its `content` list and the string
rendering `str(result)` used as a fallback. -/
structure MCPCallResult where
  content : List MCPContentItem
  raw : String
deriving Repr

/-- An MCP tool as fetched by `list_tools`: `description` is optional in the
protocol, hence `tool.description or ""` in the source. -/
structure MCPTool where
  name : String
  description : Option String
  inputSchema : JsonValue
deriving Repr

/-- One entry of the Bedrock tool configuration:
`{"toolSpec": {"name": ..., "description": ..., "inputSchema": {"json": ...}}}`. -/
structure ToolSpec where
  name : String
  description : String
  inputSchemaJson : JsonValue
deriving Repr, DecidableEq

/-- The request parameters `agent.py` sends to `bedrock.converse`:
`{"modelId": ..., "messages": ...}` plus `toolConfig` only when the tool
config dict is truthy (`toolConfig = none` models the absent key). -/
structure BedrockRequest where
  modelId : String
  messages : List Message
  toolConfig : Option (List ToolSpec)
deriving Repr

/-- `MCPToolboxAgent._format_tools_for_bedrock` (agent.py lines 54-67).
`none` models the falsy empty dict `{}` returned when `tool_specs` is empty;
`some specs` models `{"tools": specs}`. -/
def format_tools_for_bedrock (tools : List MCPTool) : Option (List ToolSpec) :=
  let tool_specs := tools.map fun tool =>
    { name := tool.name
      description := tool.description.getD ""
      inputSchemaJson := tool.inputSchema : ToolSpec }
  if tool_specs.isEmpty then none else some tool_specs

/-- The `for content in result.content: if hasattr(content, 'text'): return
content.text` scan in `_execute_tool`: the first text-bearing item wins. -/
def extract_text : List MCPContentItem → Option String
  | [] => none
  | c :: rest =>
    match c.text with
    | some t => some t
    | none => extract_text rest

/-- `MCPToolboxAgent._execute_tool` (agent.py lines 69-80).  A raised
exception from `call_tool` is the oracle's `Except.error e`; the except
branch turns it into the string `"Error executing tool: <e>"`.  On success
the first text-bearing content item's text is returned, else `str(result)`.
(`if result.content:` followed by the scan is equivalent to scanning the
possibly-empty list and falling back to `str(result)`.) -/
def execute_tool (call_tool : String → JsonValue → Except String MCPCallResult)
    (tool_name : String) (tool_input : JsonValue) : String :=
  match call_tool tool_name tool_input with
  | .error e => "Error executing tool: " ++ e
  | .ok result =>
    match extract_text result.content with
    | some t => t
    | none => result.raw

/-- The `tool_results` list built inside the `stop_reason == "tool_use"`
branch of `chat` (agent.py lines 116-132): for every `toolUse` block of the
assistant message, in order, a
`{"toolResult": {"toolUseId": id, "content": [{"text": result}]}}` block. -/
def toolResultsFor (call_tool : String → JsonValue → Except String MCPCallResult)
    (content : List ContentBlock) : List ContentBlock :=
  content.filterMap fun b =>
    match b with
    | .toolUse id name input =>
      some (.toolResult id [.text (execute_tool call_tool name input)])
    | _ => none

/-- The final-response extraction of `chat` (agent.py lines 143-146):
`if content.get("text"): final_response += content["text"]` — a left fold
that appends every truthy (non-empty) text block. -/
def final_text (content : List ContentBlock) : String :=
  content.foldl (fun acc b =>
    match b with
    | .text s => if s = "" then acc else acc ++ s
    | _ => acc) ""

/-- `assistant_message.get("content", [])`: the content of the response's
message, defaulting to the empty list when the message is absent. -/
def respContent (resp : BedrockResponse) : List ContentBlock :=
  match resp.message with
  | some m => m.content
  | none => []

/-- The single user turn `{"role": "user", "content": [{"text": user_message}]}`
appended at the start of `chat` (agent.py lines 85-88). -/
def userTurn (user_message : String) : Message :=
  { role := "user", content := [.text user_message] }

/-- The outcome of running the `while True:` loop of `chat` against a finite
response stub: the Bedrock requests issued (in order), the final
`self.messages`, the returned string (`none` iff the stub ran out while the
loop was still going), and the number of tool-execution rounds performed. -/
structure ChatOutcome where
  requests : List BedrockRequest
  messages : List Message
  result : Option String
  toolRounds : Nat
deriving Repr

/-- The request built at the top of each loop iteration (agent.py lines
94-99): `toolConfig` is attached exactly when the config dict is truthy,
which the `Option` already encodes. -/
def mkRequest (modelId : String) (messages : List Message)
    (cfg : Option (List ToolSpec)) : BedrockRequest :=
  { modelId := modelId, messages := messages, toolConfig := cfg }

/-- The `while True:` loop of `MCPToolboxAgent.chat` (agent.py lines 92-148),
recursing on the stubbed response list.  Each iteration: issue the request;
a service exception returns `"Bedrock error: <e>"` with `self.messages`
untouched; on success the assistant message is appended iff truthy, then
either a tool round runs (append one user turn of tool results, continue) or
the text blocks of the assistant message are concatenated and returned. -/
def chatLoop (call_tool : String → JsonValue → Except String MCPCallResult)
    (modelId : String) (cfg : Option (List ToolSpec)) :
    List (Except String BedrockResponse) → List Message → ChatOutcome
  | [], messages =>
    { requests := [mkRequest modelId messages cfg], messages := messages,
      result := none, toolRounds := 0 }
  | .error e :: _, messages =>
    { requests := [mkRequest modelId messages cfg], messages := messages,
      result := some ("Bedrock error: " ++ e), toolRounds := 0 }
  | .ok resp :: rest, messages =>
    let messages1 := match resp.message with
      | some m => messages ++ [m]
      | none => messages
    if resp.stopReason = some "tool_use" then
      let tool_results := toolResultsFor call_tool (respContent resp)
      let messages2 := messages1 ++ [{ role := "user", content := tool_results }]
      let o := chatLoop call_tool modelId cfg rest messages2
      { requests := mkRequest modelId messages cfg :: o.requests,
        messages := o.messages, result := o.result,
        toolRounds := o.toolRounds + 1 }
    else
      { requests := [mkRequest modelId messages cfg], messages := messages1,
        result := some (final_text (respContent resp)), toolRounds := 0 }

/-- `MCPToolboxAgent.chat` (agent.py lines 82-148): append the user turn,
compute the tool config once, and run the loop. -/
def chat (call_tool : String → JsonValue → Except String MCPCallResult)
    (tools : List MCPTool) (modelId : String)
    (responses : List (Except String BedrockResponse))
    (messages : List Message) (user_message : String) : ChatOutcome :=
  chatLoop call_tool modelId (format_tools_for_bedrock tools) responses
    (messages ++ [userTurn user_message])

/-- `MCPToolboxAgent.clear_history` (agent.py lines 150-152):
`self.messages = []`. -/
def clear_history (_messages : List Message) : List Message := []

/-- The `toolUse` ids of a content list, in order of appearance. -/
def requestIds (content : List ContentBlock) : List String :=
  content.filterMap fun b =>
    match b with
    | .toolUse id _ _ => some id
    | _ => none

/-- The `toolResult` ids of a content list, in order of appearance. -/
def resultIds (content : List ContentBlock) : List String :=
  content.filterMap fun b =>
    match b with
    | .toolResult id _ => some id
    | _ => none

/-- Spec-side reading of the Done state: the concatenation, in order, of all
`Text` blocks of a content list (empty blocks included — they contribute
nothing to the string). -/
def concatTexts : List ContentBlock → String
  | [] => ""
  | .text s :: rest => s ++ concatTexts rest
  | _ :: rest => concatTexts rest

/-! ## Helper lemmas -/

/-- What the loop returns, as a function of the response stub alone: the
returned string never depends on the history nor on the tool oracle. -/
def loopResult : List (Except String BedrockResponse) → Option String
  | [] => none
  | .error e :: _ => some ("Bedrock error: " ++ e)
  | .ok resp :: rest =>
    if resp.stopReason = some "tool_use" then loopResult rest
    else some (final_text (respContent resp))

theorem final_text_go (l : List ContentBlock) (acc : String) :
    List.foldl (fun acc b =>
      match b with
      | .text s => if s = "" then acc else acc ++ s
      | _ => acc) acc l = acc ++ concatTexts l := by
  induction l generalizing acc with
  | nil => simp [concatTexts, String.append_empty]
  | cons b rest ih =>
    cases b with
    | text s =>
      by_cases hs : s = ""
      · subst hs
        simp [concatTexts, ih, String.empty_append]
      · simp [concatTexts, ih, hs, String.append_assoc]
    | toolUse i n x => simp [concatTexts, ih]
    | toolResult i c => simp [concatTexts, ih]

/-- The truthiness filter `if content.get("text"):` in the source skips only
empty strings, so the extracted answer equals the plain concatenation of all
`Text` blocks. -/
theorem final_text_eq (l : List ContentBlock) : final_text l = concatTexts l := by
  unfold final_text
  rw [final_text_go, String.empty_append]

theorem resultIds_toolResultsFor
    (call_tool : String → JsonValue → Except String MCPCallResult)
    (content : List ContentBlock) :
    resultIds (toolResultsFor call_tool content) = requestIds content := by
  induction content with
  | nil => rfl
  | cons b rest ih =>
    cases b with
    | text s => simpa [toolResultsFor, resultIds, requestIds] using ih
    | toolUse i n x => simpa [toolResultsFor, resultIds, requestIds] using ih
    | toolResult i c => simpa [toolResultsFor, resultIds, requestIds] using ih

theorem toolResult_mem_toolResultsFor
    (call_tool : String → JsonValue → Except String MCPCallResult)
    (i tool_name : String) (tool_input : JsonValue) (content : List ContentBlock)
    (h : ContentBlock.toolUse i tool_name tool_input ∈ content) :
    ContentBlock.toolResult i
        [.text (execute_tool call_tool tool_name tool_input)]
      ∈ toolResultsFor call_tool content := by
  unfold toolResultsFor
  exact List.mem_filterMap.mpr ⟨_, h, rfl⟩

theorem chatLoop_result
    (call_tool : String → JsonValue → Except String MCPCallResult)
    (modelId : String) (cfg : Option (List ToolSpec)) :
    ∀ (rs : List (Except String BedrockResponse)) (msgs : List Message),
      (chatLoop call_tool modelId cfg rs msgs).result = loopResult rs := by
  intro rs
  induction rs with
  | nil => intro msgs; rfl
  | cons x rest ih =>
    intro msgs
    cases x with
    | error e => rfl
    | ok resp =>
      by_cases h : resp.stopReason = some "tool_use"
      · simp [chatLoop, loopResult, h, ih]
      · simp [chatLoop, loopResult, h]

theorem chatLoop_requests_head
    (call_tool : String → JsonValue → Except String MCPCallResult)
    (modelId : String) (cfg : Option (List ToolSpec))
    (rs : List (Except String BedrockResponse)) (msgs : List Message) :
    (chatLoop call_tool modelId cfg rs msgs).requests.head?
      = some (mkRequest modelId msgs cfg) := by
  cases rs with
  | nil => rfl
  | cons x rest =>
    cases x with
    | error e => rfl
    | ok resp =>
      by_cases h : resp.stopReason = some "tool_use" <;> simp [chatLoop, h]

theorem chatLoop_toolConfig
    (call_tool : String → JsonValue → Except String MCPCallResult)
    (modelId : String) (cfg : Option (List ToolSpec)) :
    ∀ (rs : List (Except String BedrockResponse)) (msgs : List Message)
      (r : BedrockRequest), r ∈ (chatLoop call_tool modelId cfg rs msgs).requests →
      r.toolConfig = cfg := by
  intro rs
  induction rs with
  | nil =>
    intro msgs r hr
    simp [chatLoop] at hr
    subst hr; rfl
  | cons x rest ih =>
    intro msgs r hr
    cases x with
    | error e =>
      simp [chatLoop] at hr
      subst hr; rfl
    | ok resp =>
      by_cases h : resp.stopReason = some "tool_use"
      · simp [chatLoop, h] at hr
        rcases hr with hr | hr
        · subst hr; rfl
        · exact ih _ _ hr
      · simp [chatLoop, h] at hr
        subst hr; rfl

theorem chatLoop_messages_extends
    (call_tool : String → JsonValue → Except String MCPCallResult)
    (modelId : String) (cfg : Option (List ToolSpec)) :
    ∀ (rs : List (Except String BedrockResponse)) (msgs : List Message),
      ∃ t, (chatLoop call_tool modelId cfg rs msgs).messages = msgs ++ t := by
  intro rs
  induction rs with
  | nil => intro msgs; exact ⟨[], by simp [chatLoop]⟩
  | cons x rest ih =>
    intro msgs
    cases x with
    | error e => exact ⟨[], by simp [chatLoop]⟩
    | ok resp =>
      by_cases h : resp.stopReason = some "tool_use"
      · cases hm : resp.message with
        | none =>
          obtain ⟨t, ht⟩ := ih
            (msgs ++ [{ role := "user",
                        content := toolResultsFor call_tool (respContent resp) }])
          refine ⟨{ role := "user",
                    content := toolResultsFor call_tool (respContent resp) } :: t, ?_⟩
          simp [chatLoop, h, hm, ht]
        | some m =>
          obtain ⟨t, ht⟩ := ih
            (msgs ++ [m, { role := "user",
                           content := toolResultsFor call_tool (respContent resp) }])
          refine ⟨m :: { role := "user",
                         content := toolResultsFor call_tool (respContent resp) } :: t, ?_⟩
          simp [chatLoop, h, hm, ht]
      · cases hm : resp.message with
        | none => exact ⟨[], by simp [chatLoop, h, hm]⟩
        | some m => exact ⟨[m], by simp [chatLoop, h, hm]⟩

theorem concatTexts_of_no_text (l : List ContentBlock)
    (h : ∀ b ∈ l, ∀ s, b ≠ ContentBlock.text s) : concatTexts l = "" := by
  induction l with
  | nil => rfl
  | cons b rest ih =>
    cases b with
    | text s => exact absurd rfl (h _ (by simp) s)
    | toolUse i n x =>
      simpa [concatTexts] using ih fun b hb => h b (by simp [hb])
    | toolResult i c =>
      simpa [concatTexts] using ih fun b hb => h b (by simp [hb])

theorem extract_text_of_no_text (l : List MCPContentItem)
    (h : ∀ c ∈ l, c.text = none) : extract_text l = none := by
  induction l with
  | nil => rfl
  | cons c rest ih =>
    have hc : c.text = none := h c (by simp)
    simp [extract_text, hc]
    exact ih fun d hd => h d (by simp [hd])

theorem extract_text_first (pre : List MCPContentItem) (c : MCPContentItem)
    (rest : List MCPContentItem) (t : String)
    (hpre : ∀ d ∈ pre, d.text = none) (hc : c.text = some t) :
    extract_text (pre ++ c :: rest) = some t := by
  induction pre with
  | nil => simp [extract_text, hc]
  | cons d pre' ih =>
    have hd : d.text = none := hpre d (by simp)
    simp [extract_text, hd]
    exact ih fun d' hd' => hpre d' (by simp [hd'])

/-! ## Concrete stubs used by witnesses and counterexamples -/

/-- A tool oracle whose every call raises. -/
def ctStubFail : String → JsonValue → Except String MCPCallResult :=
  fun _ _ => .error "boom"

/-- A tool oracle that always succeeds with one non-text item followed by two
text items. -/
def ctStubOk : String → JsonValue → Except String MCPCallResult :=
  fun _ _ => .ok { content := [⟨none⟩, ⟨some "42"⟩, ⟨some "43"⟩], raw := "RAW" }

/-- A tool-use response carrying one `toolUse` request with id `"t1"`. -/
def respToolUse1 : BedrockResponse :=
  { stopReason := some "tool_use",
    message := some { role := "assistant",
                      content := [.toolUse "t1" "query_sql" "SELECT 1"] } }

/-! ## Claims -/

/-- C1: in any loop iteration where the service signals `"tool_use"` and
returns an assistant message `m`, the loop continues with exactly `m`
followed immediately by a single user turn holding the collected tool
results; the `toolResult` ids of that user turn are exactly the `toolUse`
ids of `m`, in order (so none references an id absent from `m`), and, the
request ids being distinct, each request id occurs exactly once. -/
theorem C1_tool_round_matches_requests
    (call_tool : String → JsonValue → Except String MCPCallResult)
    (modelId : String) (cfg : Option (List ToolSpec))
    (rest : List (Except String BedrockResponse)) (messages : List Message)
    (resp : BedrockResponse) (m : Message)
    (hstop : resp.stopReason = some "tool_use")
    (hmsg : resp.message = some m)
    (hnodup : (requestIds m.content).Nodup) :
    (chatLoop call_tool modelId cfg (.ok resp :: rest) messages).messages
      = (chatLoop call_tool modelId cfg rest
          (messages ++
            [m, { role := "user",
                  content := toolResultsFor call_tool m.content }])).messages
    ∧ resultIds (toolResultsFor call_tool m.content) = requestIds m.content
    ∧ ∀ i ∈ requestIds m.content,
        (resultIds (toolResultsFor call_tool m.content)).count i = 1 := by
  refine ⟨?_, resultIds_toolResultsFor call_tool m.content, ?_⟩
  · simp [chatLoop, hstop, hmsg, respContent]
  · intro i hi
    rw [resultIds_toolResultsFor]
    exact List.count_eq_one_of_mem hnodup hi

/-- Witness for C1 at a concrete tool-use response with a single request. -/
theorem C1_tool_round_matches_requests_witness :
    resultIds (toolResultsFor ctStubFail [.toolUse "t1" "query_sql" "SELECT 1"])
      = requestIds [.toolUse "t1" "query_sql" "SELECT 1"] :=
  (C1_tool_round_matches_requests ctStubFail "m" none [] [] respToolUse1
    { role := "assistant", content := [.toolUse "t1" "query_sql" "SELECT 1"] }
    rfl rfl (by simp [requestIds])).2.1

/-- C2 counterexample: a successful response whose assistant message is
absent (`output.get("message", {})` is falsy) appends nothing: after the
call the history holds only the user turn, so the returned assistant Turn
is not appended "unconditionally, even when absent" as claimed. -/
theorem C2_absent_turn_not_appended :
    (chat ctStubFail [] "m" [.ok { stopReason := some "end_turn", message := none }]
        [] "hi").messages
      = [userTurn "hi"] := rfl

/-- C2 amended: the returned assistant Turn is appended whenever it is
present — including when its content is empty — in both the tool-use and
the terminal branch; only an absent message is skipped. -/
theorem C2_present_turn_appended
    (call_tool : String → JsonValue → Except String MCPCallResult)
    (modelId : String) (cfg : Option (List ToolSpec))
    (rest : List (Except String BedrockResponse)) (messages : List Message)
    (resp : BedrockResponse) (m : Message)
    (hmsg : resp.message = some m) :
    (chatLoop call_tool modelId cfg (.ok resp :: rest) messages).messages
      = if resp.stopReason = some "tool_use" then
          (chatLoop call_tool modelId cfg rest
            (messages ++
              [m, { role := "user",
                    content := toolResultsFor call_tool m.content }])).messages
        else messages ++ [m] := by
  by_cases h : resp.stopReason = some "tool_use" <;>
    simp [chatLoop, hmsg, respContent, h]

/-- Witness for C2's amended claim: an assistant Turn with empty content is
still appended. -/
theorem C2_present_turn_appended_witness :
    (chatLoop ctStubFail "m" none
        [.ok { stopReason := some "end_turn",
               message := some { role := "assistant", content := [] } }]
        []).messages
      = [{ role := "assistant", content := [] }] := by
  simpa using C2_present_turn_appended ctStubFail "m" none [] []
    { stopReason := some "end_turn",
      message := some { role := "assistant", content := [] } }
    { role := "assistant", content := [] } rfl

/-- C3: when the underlying `call_tool` fails with cause `e`,
`_execute_tool` returns the string `"Error executing tool: <e>"` rather
than raising (in the embedding it is a total function); that string is
wrapped as the failing request's ToolResult in the user turn the loop
appends; and the string `chat` returns never depends on the tool oracle at
all, so a tool failure can never stop `chat` from returning. -/
theorem C3_tool_failure_contained
    (call_tool : String → JsonValue → Except String MCPCallResult)
    (tool_name : String) (tool_input : JsonValue) (e : String)
    (h : call_tool tool_name tool_input = .error e) :
    execute_tool call_tool tool_name tool_input = "Error executing tool: " ++ e
    ∧ (∀ (i : String) (content : List ContentBlock),
        ContentBlock.toolUse i tool_name tool_input ∈ content →
        ContentBlock.toolResult i [.text ("Error executing tool: " ++ e)]
          ∈ toolResultsFor call_tool content)
    ∧ (∀ (call_tool₂ : String → JsonValue → Except String MCPCallResult)
         (modelId : String) (cfg : Option (List ToolSpec))
         (rs : List (Except String BedrockResponse)) (msgs : List Message),
        (chatLoop call_tool modelId cfg rs msgs).result
          = (chatLoop call_tool₂ modelId cfg rs msgs).result) := by
  have hexec : execute_tool call_tool tool_name tool_input
      = "Error executing tool: " ++ e := by
    simp [execute_tool, h]
  refine ⟨hexec, ?_, ?_⟩
  · intro i content hmem
    have := toolResult_mem_toolResultsFor call_tool i tool_name tool_input content hmem
    rwa [hexec] at this
  · intro call_tool₂ modelId cfg rs msgs
    rw [chatLoop_result, chatLoop_result]

/-- Witness for C3 at a concrete failing oracle. -/
theorem C3_tool_failure_contained_witness :
    execute_tool ctStubFail "query_sql" "SELECT 1" = "Error executing tool: " ++ "boom" :=
  (C3_tool_failure_contained ctStubFail "query_sql" "SELECT 1" "boom" rfl).1

/-- C4: when the model-service call raises with cause `e`, the loop stops at
once and returns the user-visible string `"Bedrock error: <e>"`; the history
is exactly what it was when the iteration began (no speculative assistant
turn is appended) and no tool round runs. -/
theorem C4_service_error_intact_history
    (call_tool : String → JsonValue → Except String MCPCallResult)
    (modelId : String) (cfg : Option (List ToolSpec)) (e : String)
    (rest : List (Except String BedrockResponse)) (messages : List Message) :
    chatLoop call_tool modelId cfg (.error e :: rest) messages
      = { requests := [mkRequest modelId messages cfg],
          messages := messages,
          result := some ("Bedrock error: " ++ e),
          toolRounds := 0 } := rfl

/-- C5: against a stub that signals `"tool_use"` on exactly its first two
responses and a terminal stop reason on the third, `chat` terminates having
performed exactly two tool-execution rounds, and returns the concatenated
text of the third (final) assistant Turn. -/
theorem C5_two_tool_rounds_then_done
    (call_tool : String → JsonValue → Except String MCPCallResult)
    (tools : List MCPTool) (modelId : String) (messages : List Message)
    (u : String) (r1 r2 r3 : BedrockResponse)
    (h1 : r1.stopReason = some "tool_use")
    (h2 : r2.stopReason = some "tool_use")
    (h3 : r3.stopReason ≠ some "tool_use") :
    (chat call_tool tools modelId [.ok r1, .ok r2, .ok r3] messages u).toolRounds = 2
    ∧ (chat call_tool tools modelId [.ok r1, .ok r2, .ok r3] messages u).result
        = some (concatTexts (respContent r3)) := by
  constructor <;> simp [chat, chatLoop, h1, h2, h3, final_text_eq]

/-- Witness for C5 at a concrete two-tool-round stub. -/
theorem C5_two_tool_rounds_then_done_witness :
    (chat ctStubOk [] "m"
        [.ok respToolUse1, .ok respToolUse1,
         .ok { stopReason := some "end_turn",
               message := some { role := "assistant",
                                 content := [.text "There are 42 rows."] } }]
        [] "How many?").toolRounds = 2 :=
  (C5_two_tool_rounds_then_done ctStubOk [] "m" [] "How many?"
    respToolUse1 respToolUse1
    { stopReason := some "end_turn",
      message := some { role := "assistant",
                        content := [.text "There are 42 rows."] } }
    rfl rfl (by simp)).1

/-- C6: whenever the service reports a stop reason other than `"tool_use"`,
the loop returns the concatenation, in order, of all `Text` blocks of the
final assistant Turn, and the empty string (not an error) when that Turn
contains no `Text` blocks (or is absent). -/
theorem C6_done_concatenates_text
    (call_tool : String → JsonValue → Except String MCPCallResult)
    (modelId : String) (cfg : Option (List ToolSpec))
    (rest : List (Except String BedrockResponse)) (messages : List Message)
    (resp : BedrockResponse)
    (h : resp.stopReason ≠ some "tool_use") :
    (chatLoop call_tool modelId cfg (.ok resp :: rest) messages).result
      = some (concatTexts (respContent resp))
    ∧ ((∀ b ∈ respContent resp, ∀ s, b ≠ ContentBlock.text s) →
        (chatLoop call_tool modelId cfg (.ok resp :: rest) messages).result
          = some "") := by
  have hres : (chatLoop call_tool modelId cfg (.ok resp :: rest) messages).result
      = some (concatTexts (respContent resp)) := by
    simp [chatLoop, h, final_text_eq]
  exact ⟨hres, fun hno => by rw [hres, concatTexts_of_no_text _ hno]⟩

/-- Witness for C6 at a concrete terminal response whose assistant Turn has
no Text blocks: the answer is the empty string. -/
theorem C6_done_concatenates_text_witness :
    (chatLoop ctStubFail "m" none
        [.ok { stopReason := some "end_turn",
               message := some { role := "assistant",
                                 content := [.toolUse "a" "b" "c"] } }]
        []).result = some "" :=
  (C6_done_concatenates_text ctStubFail "m" none [] []
    { stopReason := some "end_turn",
      message := some { role := "assistant", content := [.toolUse "a" "b" "c"] } }
    (by simp)).2 (by intro b hb s; simp [respContent] at hb; simp [hb])

/-- C7: an empty catalog maps to the falsy `{}` config, so the request sent
to the service carries no `toolConfig` at all; a non-empty catalog maps each
tool to a declaration with its name, its description defaulting to `""`,
and its input schema embedded verbatim. -/
theorem C7_tool_catalog_schema (tools : List MCPTool) :
    format_tools_for_bedrock [] = none
    ∧ format_tools_for_bedrock tools
        = (if tools.isEmpty then none
           else some (tools.map fun t =>
             { name := t.name, description := t.description.getD "",
               inputSchemaJson := t.inputSchema }))
    ∧ (∀ (call_tool : String → JsonValue → Except String MCPCallResult)
         (modelId : String) (rs : List (Except String BedrockResponse))
         (messages : List Message) (u : String) (r : BedrockRequest),
        r ∈ (chat call_tool [] modelId rs messages u).requests →
        r.toolConfig = none) := by
  refine ⟨rfl, ?_, ?_⟩
  · cases tools <;> simp [format_tools_for_bedrock]
  · intro call_tool modelId rs messages u r hr
    exact chatLoop_toolConfig call_tool modelId none rs _ r hr

/-- Witness for C7: the single request of a concrete empty-catalog call
carries no tool configuration. -/
theorem C7_tool_catalog_schema_witness :
    (mkRequest "m" [userTurn "hi"] none).toolConfig = none :=
  (C7_tool_catalog_schema []).2.2 ctStubFail "m" [] [] "hi"
    (mkRequest "m" [userTurn "hi"] none)
    (by simp [chat, chatLoop, format_tools_for_bedrock])

/-- C8: on a successful tool call, `_execute_tool` returns the text of the
first text-bearing content item, ignoring everything after it; when no item
bears text (in particular when there are no items), it returns the raw
string rendering of the result. -/
theorem C8_first_text_item_only
    (call_tool : String → JsonValue → Except String MCPCallResult)
    (tool_name : String) (tool_input : JsonValue) (result : MCPCallResult)
    (h : call_tool tool_name tool_input = .ok result) :
    (∀ (pre : List MCPContentItem) (c : MCPContentItem)
       (rest : List MCPContentItem) (t : String),
        result.content = pre ++ c :: rest →
        (∀ d ∈ pre, d.text = none) → c.text = some t →
        execute_tool call_tool tool_name tool_input = t)
    ∧ ((∀ c ∈ result.content, c.text = none) →
        execute_tool call_tool tool_name tool_input = result.raw) := by
  constructor
  · intro pre c rest t hsplit hpre hc
    simp [execute_tool, h, hsplit, extract_text_first pre c rest t hpre hc]
  · intro hnone
    simp [execute_tool, h, extract_text_of_no_text _ hnone]

/-- Witness for C8: with items `[no-text, "42", "43"]` the call returns
`"42"`, ignoring the later `"43"` item. -/
theorem C8_first_text_item_only_witness :
    execute_tool ctStubOk "q" "x" = "42" :=
  (C8_first_text_item_only ctStubOk "q" "x"
    { content := [⟨none⟩, ⟨some "42"⟩, ⟨some "43"⟩], raw := "RAW" } rfl).1
    [⟨none⟩] ⟨some "42"⟩ [⟨some "43"⟩] "42" rfl (by simp) rfl

/-- C9: `clear_history` resets the history to the empty sequence, and the
first request the next `chat` call sends to the model service carries a
history of exactly one Turn: the new user message. -/
theorem C9_reset_clears_state
    (messages : List Message)
    (call_tool : String → JsonValue → Except String MCPCallResult)
    (tools : List MCPTool) (modelId : String)
    (rs : List (Except String BedrockResponse)) (u : String) :
    clear_history messages = []
    ∧ (chat call_tool tools modelId rs (clear_history messages) u).requests.head?
        = some (mkRequest modelId [userTurn u] (format_tools_for_bedrock tools)) := by
  refine ⟨rfl, ?_⟩
  simp [chat, clear_history, chatLoop_requests_head]

/-- C10: every `chat` call leaves the pre-call history in place with the new
user turn appended right after it (no rollback), and when the very next
model-service request fails the post-call history is exactly the pre-call
history plus that user turn. -/
theorem C10_user_turn_persists
    (call_tool : String → JsonValue → Except String MCPCallResult)
    (tools : List MCPTool) (modelId : String)
    (rs : List (Except String BedrockResponse)) (messages : List Message)
    (u e : String) (rest : List (Except String BedrockResponse)) :
    (∃ t, (chat call_tool tools modelId rs messages u).messages
        = (messages ++ [userTurn u]) ++ t)
    ∧ (chat call_tool tools modelId (.error e :: rest) messages u).messages
        = messages ++ [userTurn u] := by
  constructor
  · exact chatLoop_messages_extends call_tool modelId
      (format_tools_for_bedrock tools) rs (messages ++ [userTurn u])
  · rfl
